import Mathlib

/-!
Verification development for the in-memory library catalog
(src/operations.py of the repository under review).

The Python classes Book, Member and Library are shallowly embedded:
objects become records, the books dict becomes an insertion-ordered
association list, in-place mutation becomes explicit state passing, and
each operation returns the post state together with an outcome that is
either the returned Boolean or the raised error.  Copy counters are
integers, matching Python's unbounded int.
-/

set_option maxHeartbeats 1000000

namespace LibrarySystem

/-- Book record mirroring the Python class Book. -/
structure Book where
  isbn : String
  title : String
  author : String
  genre : String
  total_copies : Int
  available_copies : Int
deriving Repr, DecidableEq

/-- Member record mirroring the Python class Member. -/
structure Member where
  member_id : String
  name : String
  email : String
  borrowed_books : List String
deriving Repr, DecidableEq

/-- Library state: the books dict (insertion-ordered association list from
isbn to Book; a Python dict has unique keys, which here is an invariant of
reachable states) and the members list. -/
structure Library where
  books : List (String × Book)
  members : List Member
deriving Repr, DecidableEq

/-- Error taxonomy; each constructor corresponds to one distinct raise site
of the Python code (all of them ValueError, distinguished by message). -/
inductive LibError where
  | duplicateKey
  | notFound
  | invalidArgument
  | conflict
  | limitExceeded
  | unavailable
  | alreadyHeld
  | notHeld
deriving Repr, DecidableEq

/-- Fixed genre tuple of Library.__init__. -/
def genres : List String :=
  ["Fiction", "Non-Fiction", "Sci-Fi", "Mystery", "Biography", "Romance",
   "Thriller", "History"]

/-- Character class of the local part of the email pattern. -/
def classA (c : Char) : Bool :=
  c.isAlpha || c.isDigit || c == '.' || c == '_' || c == '%' || c == '+' || c == '-'

/-- Character class of the domain part of the email pattern. -/
def classB (c : Char) : Bool :=
  c.isAlpha || c.isDigit || c == '.' || c == '-'

/-- Backtracking matcher for the regex fragment consisting of a run of
domain characters, a literal dot, and a top-level domain of at least two
letters, run against the whole remaining input. -/
def domRest : List Char → Bool
  | [] => false
  | c :: t =>
    if c == '.' then ((decide (2 ≤ t.length) && t.all Char.isAlpha) || domRest t)
    else (classB c && domRest t)

/-- Matcher for the domain side of the pattern: at least one domain
character, then a dot and the top-level domain. -/
def domainOk : List Char → Bool
  | [] => false
  | c :: t => classB c && domRest t

/-- Matcher for the part after the first local character: more local
characters, then the at sign, then the domain. -/
def localRest : List Char → Bool
  | [] => false
  | c :: t => if c == '@' then domainOk t else classA c && localRest t

/-- Whole-string email matcher: nonempty local part, at sign, domain. -/
def emailChars : List Char → Bool
  | [] => false
  | c :: t => classA c && localRest t

/-- Model of Member._is_valid_email: Python re.match with a dollar anchor,
which also matches just before a single trailing newline. -/
def is_valid_email (email : String) : Bool :=
  let cs := email.data
  let cs := if cs.getLast? == some '\n' then cs.dropLast else cs
  emailChars cs

/-- Dict lookup self.books[isbn] (first entry with the given key). -/
def lookupBook (l : Library) (isbn : String) : Option Book :=
  (l.books.find? (fun p => p.1 == isbn)).map Prod.snd

/-- Model of Library._find_member_by_id. -/
def find_member_by_id (l : Library) (mid : String) : Option Member :=
  l.members.find? (fun m => m.member_id == mid)

/-- Replace the first element satisfying q by a. -/
def replaceFirstP (q : α → Bool) (a : α) : List α → List α
  | [] => []
  | x :: xs => if q x then a :: xs else x :: replaceFirstP q a xs

/-- Write back a mutated Book object: in Python the dict entry is the very
object being mutated, so mutation replaces the entry with the given key. -/
def setBook (l : Library) (isbn : String) (b : Book) : Library :=
  { l with books := replaceFirstP (fun p => p.1 == isbn) (isbn, b) l.books }

/-- Write back a mutated Member object (first member with the given id). -/
def setMember (l : Library) (mid : String) (m : Member) : Library :=
  { l with members := replaceFirstP (fun x => x.member_id == mid) m l.members }

/-- Model of Library.add_book.  The Book constructor check on
total_copies runs after the duplicate and genre checks. -/
def add_book (l : Library) (isbn title author genre : String)
    (total_copies : Int) : Library × Except LibError Bool :=
  if (lookupBook l isbn).isSome then (l, .error .duplicateKey)
  else if genre ∉ genres then (l, .error .invalidArgument)
  else if total_copies ≤ 0 then (l, .error .invalidArgument)
  else ({ l with
          books := l.books ++
            [(isbn, ⟨isbn, title, author, genre, total_copies, total_copies⟩)] },
        .ok true)

/-- Model of Library.add_member.  The Member constructor validates the
email after the duplicate-id check. -/
def add_member (l : Library) (member_id name email : String) :
    Library × Except LibError Bool :=
  if (find_member_by_id l member_id).isSome then (l, .error .duplicateKey)
  else if is_valid_email email then
    ({ l with members := l.members ++ [⟨member_id, name, email, []⟩] }, .ok true)
  else (l, .error .invalidArgument)

/-- Lower-casing of a string, character by character (ASCII letters). -/
def lowerStr (s : String) : String := ⟨s.data.map Char.toLower⟩

/-- Python substring containment needle in hay. -/
def strContains (hay needle : String) : Bool := decide (needle.data <:+: hay.data)

/-- Model of Library.search_books. -/
def search_books (l : Library) (query : String) : List Book :=
  let ql := lowerStr query
  (l.books.filter (fun p =>
      strContains (lowerStr p.2.title) ql || strContains (lowerStr p.2.author) ql)).map
    Prod.snd

/-- Model of Library.list_all_books. -/
def list_all_books (l : Library) : List Book := l.books.map Prod.snd

/-- Model of Library.list_all_members. -/
def list_all_members (l : Library) : List Member := l.members

/-- Optional keyword arguments accepted by update_book. -/
structure BookUpdate where
  title : Option String
  author : Option String
  genre : Option String
  total_copies : Option Int
deriving Repr, DecidableEq

/-- Optional keyword arguments accepted by update_member. -/
structure MemberUpdate where
  name : Option String
  email : Option String
deriving Repr, DecidableEq

/-- Conditional in-place update of the title field. -/
def applyTitle (b : Book) : Option String → Book
  | some t => { b with title := t }
  | none => b

/-- Conditional in-place update of the author field. -/
def applyAuthor (b : Book) : Option String → Book
  | some a => { b with author := a }
  | none => b

/-- Tail of update_book handling the total_copies keyword; l already holds
the book value b at the given isbn (earlier field writes applied). -/
def update_book_total (l : Library) (isbn : String) (b : Book) :
    Option Int → Library × Except LibError Bool
  | none => (l, .ok true)
  | some new_total =>
    if new_total ≤ 0 then (l, .error .invalidArgument)
    else
      let borrowed_count := b.total_copies - b.available_copies
      if new_total < borrowed_count then (l, .error .invalidArgument)
      else
        (setBook l isbn
          { b with total_copies := new_total,
                   available_copies := new_total - borrowed_count }, .ok true)

/-- Model of Library.update_book.  Fields are written in source order
(title, author, genre, total_copies); a failing later check leaves the
earlier in-place writes in the state, exactly as the Python code does. -/
def update_book (l : Library) (isbn : String) (kw : BookUpdate) :
    Library × Except LibError Bool :=
  match lookupBook l isbn with
  | none => (l, .error .notFound)
  | some book0 =>
    let b2 := applyAuthor (applyTitle book0 kw.title) kw.author
    match kw.genre with
    | some g =>
      if g ∈ genres then
        update_book_total (setBook l isbn { b2 with genre := g }) isbn
          { b2 with genre := g } kw.total_copies
      else (setBook l isbn b2, .error .invalidArgument)
    | none => update_book_total (setBook l isbn b2) isbn b2 kw.total_copies

/-- Conditional in-place update of the name field. -/
def applyName (m : Member) : Option String → Member
  | some n => { m with name := n }
  | none => m

/-- Model of Library.update_member: name written first, then the email is
validated and written; a failing email check leaves the name write. -/
def update_member (l : Library) (member_id : String) (kw : MemberUpdate) :
    Library × Except LibError Bool :=
  match find_member_by_id l member_id with
  | none => (l, .error .notFound)
  | some m0 =>
    let m1 := applyName m0 kw.name
    match kw.email with
    | none => (setMember l member_id m1, .ok true)
    | some e =>
      if is_valid_email e then (setMember l member_id { m1 with email := e }, .ok true)
      else (setMember l member_id m1, .error .invalidArgument)

/-- Model of Library.delete_book. -/
def delete_book (l : Library) (isbn : String) : Library × Except LibError Bool :=
  match lookupBook l isbn with
  | none => (l, .error .notFound)
  | some book =>
    if book.available_copies ≠ book.total_copies then (l, .error .conflict)
    else ({ l with books := l.books.eraseP (fun p => p.1 == isbn) }, .ok true)

/-- Model of Library.delete_member; list.remove removes the found object,
which is the first member carrying the id. -/
def delete_member (l : Library) (member_id : String) : Library × Except LibError Bool :=
  match find_member_by_id l member_id with
  | none => (l, .error .notFound)
  | some m =>
    if m.borrowed_books ≠ [] then (l, .error .conflict)
    else ({ l with members := l.members.eraseP (fun x => x.member_id == member_id) },
          .ok true)

/-- Model of Library.borrow_book, with the checks in source order. -/
def borrow_book (l : Library) (member_id isbn : String) :
    Library × Except LibError Bool :=
  match find_member_by_id l member_id with
  | none => (l, .error .notFound)
  | some member =>
    match lookupBook l isbn with
    | none => (l, .error .notFound)
    | some book =>
      if 3 ≤ member.borrowed_books.length then (l, .error .limitExceeded)
      else if book.available_copies ≤ 0 then (l, .error .unavailable)
      else if isbn ∈ member.borrowed_books then (l, .error .alreadyHeld)
      else
        (setBook
          (setMember l member_id
            { member with borrowed_books := member.borrowed_books ++ [isbn] })
          isbn { book with available_copies := book.available_copies - 1 },
         .ok true)

/-- Model of Library.return_book; list.remove drops the first occurrence. -/
def return_book (l : Library) (member_id isbn : String) :
    Library × Except LibError Bool :=
  match find_member_by_id l member_id with
  | none => (l, .error .notFound)
  | some member =>
    match lookupBook l isbn with
    | none => (l, .error .notFound)
    | some book =>
      if isbn ∉ member.borrowed_books then (l, .error .notHeld)
      else
        (setBook
          (setMember l member_id
            { member with borrowed_books := member.borrowed_books.erase isbn })
          isbn { book with available_copies := book.available_copies + 1 },
         .ok true)

/-- One catalog operation, for quantifying over operation sequences. -/
inductive Op where
  | addBook (isbn title author genre : String) (total_copies : Int)
  | addMember (member_id name email : String)
  | updateBook (isbn : String) (kw : BookUpdate)
  | updateMember (member_id : String) (kw : MemberUpdate)
  | deleteBook (isbn : String)
  | deleteMember (member_id : String)
  | borrowBook (member_id isbn : String)
  | returnBook (member_id isbn : String)
deriving Repr, DecidableEq

/-- Run one operation, returning post state and outcome. -/
def applyOp (l : Library) : Op → Library × Except LibError Bool
  | .addBook i t a g n => add_book l i t a g n
  | .addMember m n e => add_member l m n e
  | .updateBook i kw => update_book l i kw
  | .updateMember m kw => update_member l m kw
  | .deleteBook i => delete_book l i
  | .deleteMember m => delete_member l m
  | .borrowBook m i => borrow_book l m i
  | .returnBook m i => return_book l m i

/-- Post state of one operation. -/
def stepLib (l : Library) (op : Op) : Library := (applyOp l op).1

/-- The empty library of Library.__init__. -/
def emptyLibrary : Library := ⟨[], []⟩

/-- State after a sequence of operations from the empty library. -/
def runOps (ops : List Op) : Library := ops.foldl stepLib emptyLibrary

/-- Number of members currently holding the given isbn. -/
def holdsCount (l : Library) (i : String) : Nat :=
  l.members.countP (fun m => m.borrowed_books.contains i)

/-- Keys of the books dict. -/
def bookKeys (l : Library) : List String := l.books.map Prod.fst

/-- Composite state invariant of reachable catalog states: unique keys and
ids, availability bounds, cross-entity loan consistency, borrowing limit,
duplicate-free loan lists, and loans referring to existing books. -/
def Inv (l : Library) : Prop :=
  (bookKeys l).Nodup ∧
  (l.members.map Member.member_id).Nodup ∧
  (∀ p ∈ l.books, 0 ≤ p.2.available_copies ∧ p.2.available_copies ≤ p.2.total_copies) ∧
  (∀ p ∈ l.books, p.2.total_copies - p.2.available_copies = (holdsCount l p.1 : Int)) ∧
  (∀ m ∈ l.members,
    m.borrowed_books.length ≤ 3 ∧ m.borrowed_books.Nodup ∧
    ∀ i ∈ m.borrowed_books, i ∈ bookKeys l)

/-- Operations whose failing calls write nothing before the failing check:
every operation except a multi-field update where an already-written field
precedes the check that fails.  For update_book this requires title and
author unsupplied and genre and total_copies not both supplied; for
update_member it requires name unsupplied. -/
def FramedOp : Op → Prop
  | .updateBook _ kw =>
    kw.title = none ∧ kw.author = none ∧ (kw.genre = none ∨ kw.total_copies = none)
  | .updateMember _ kw => kw.name = none
  | _ => True

/-- Search predicate in the words of the specification: the query is a
case-insensitive substring of the title or of the author. -/
def specMatch (query : String) (b : Book) : Prop :=
  (lowerStr query).data <:+: (lowerStr b.title).data ∨
  (lowerStr query).data <:+: (lowerStr b.author).data

/-- Concrete operation run used by witnesses: one book, one member. -/
def opsB : List Op :=
  [.addBook "i1" "Dune" "Herbert" "Sci-Fi" 2,
   .addMember "M1" "Ann" "ann@mail.com",
   .borrowBook "M1" "i1"]

/-- Concrete operation run used by witnesses: a member at the limit. -/
def opsC : List Op :=
  [.addBook "b1" "T1" "A1" "Fiction" 1,
   .addBook "b2" "T2" "A2" "Fiction" 1,
   .addBook "b3" "T3" "A3" "Fiction" 1,
   .addBook "b4" "T4" "A4" "Fiction" 1,
   .addMember "M1" "Ann" "ann@mail.com",
   .borrowBook "M1" "b1",
   .borrowBook "M1" "b2",
   .borrowBook "M1" "b3"]

/-- Concrete state used by witnesses: one book of two copies, one member. -/
def libV : Library :=
  ⟨[("i1", ⟨"i1", "Dune", "Herbert", "Sci-Fi", 2, 2⟩)],
   [⟨"M1", "Ann", "ann@mail.com", []⟩]⟩

/-- Concrete state used by witnesses: one book with one copy borrowed. -/
def libC : Library := ⟨[("i1", ⟨"i1", "T", "A", "Fiction", 2, 1⟩)], []⟩

/-- Concrete state used by counterexamples: one fully available book. -/
def libD : Library := ⟨[("i1", ⟨"i1", "T", "A", "Fiction", 1, 1⟩)], []⟩

/-- Splitting view of a successful find?: the list decomposes around the
found element, and both replaceFirstP and eraseP act on that position. -/
theorem find?_split (q : α → Bool) (a : α) :
    ∀ (l : List α) (x : α), l.find? q = some x →
      ∃ s t, l = s ++ x :: t ∧ (∀ y ∈ s, q y = false) ∧ q x = true ∧
        replaceFirstP q a l = s ++ a :: t ∧ l.eraseP q = s ++ t := by
  intro l
  induction l with
  | nil => intro x h; simp at h
  | cons y ys ih =>
    intro x h
    cases hy : q y with
    | true =>
      rw [List.find?_cons_of_pos _ hy] at h
      injection h with h
      subst h
      exact ⟨[], ys, by simp, by simp, hy, by simp [replaceFirstP, hy],
        by simp [List.eraseP_cons, hy]⟩
    | false =>
      rw [List.find?_cons_of_neg _ (by simp [hy])] at h
      obtain ⟨s, t, hl, hs, hx, hr, he⟩ := ih x h
      refine ⟨y :: s, t, by simp [hl], ?_, hx, ?_, ?_⟩
      · intro z hz
        rcases List.mem_cons.mp hz with rfl | hz
        · exact hy
        · exact hs z hz
      · simp [replaceFirstP, hy, hr]
      · simp [List.eraseP_cons, hy, he]

/-- When find? fails on a left part, search continues on the right part. -/
theorem find?_append_none {q : α → Bool} {s : List α}
    (hs : ∀ y ∈ s, q y = false) (r : List α) :
    List.find? q (s ++ r) = List.find? q r := by
  induction s with
  | nil => rfl
  | cons y ys ih =>
    rw [List.cons_append, List.find?_cons_of_neg _ (by simp [hs y (by simp)])]
    exact ih (fun z hz => hs z (List.mem_cons_of_mem _ hz))

/-- Successful book lookup produces the first entry with the given key. -/
theorem lookupBook_some {l : Library} {isbn : String} {b : Book}
    (h : lookupBook l isbn = some b) :
    l.books.find? (fun p => p.1 == isbn) = some (isbn, b) := by
  unfold lookupBook at h
  cases hf : l.books.find? (fun p => p.1 == isbn) with
  | none => rw [hf] at h; simp at h
  | some p =>
    rw [hf] at h
    simp only [Option.map_some'] at h
    injection h with h
    have hq := List.find?_some hf
    have h1 : p.1 = isbn := by simpa using hq
    cases p
    simp_all

theorem setBook_members (l : Library) (isbn : String) (b : Book) :
    (setBook l isbn b).members = l.members := rfl

theorem setMember_books (l : Library) (mid : String) (m : Member) :
    (setMember l mid m).books = l.books := rfl

/-- Splitting view of the books list around a successfully looked-up book,
together with the effect of writing back a new value at that key. -/
theorem setBook_split {l : Library} {isbn : String} {b0 : Book} (b : Book)
    (h : lookupBook l isbn = some b0) :
    ∃ s t, l.books = s ++ (isbn, b0) :: t ∧ (∀ y ∈ s, (y.1 == isbn) = false) ∧
      (setBook l isbn b).books = s ++ (isbn, b) :: t := by
  obtain ⟨s, t, hl, hs, _, hr, _⟩ :=
    find?_split (fun p => p.1 == isbn) (isbn, b) l.books _ (lookupBook_some h)
  exact ⟨s, t, hl, hs, hr⟩

/-- Splitting view of the members list around a successfully found member,
together with the effect of writing back a new value at that id. -/
theorem setMember_split {l : Library} {mid : String} {m0 : Member} (m : Member)
    (h : find_member_by_id l mid = some m0) :
    ∃ s t, l.members = s ++ m0 :: t ∧ (∀ y ∈ s, (y.member_id == mid) = false) ∧
      m0.member_id = mid ∧ (setMember l mid m).members = s ++ m :: t := by
  unfold find_member_by_id at h
  obtain ⟨s, t, hl, hs, hx, hr, _⟩ :=
    find?_split (fun x => x.member_id == mid) m l.members _ h
  exact ⟨s, t, hl, hs, by simpa using hx, hr⟩

/-- Writing back the looked-up value itself is a no-op. -/
theorem setBook_self {l : Library} {isbn : String} {b : Book}
    (h : lookupBook l isbn = some b) : setBook l isbn b = l := by
  obtain ⟨s, t, hl, _, hr⟩ := setBook_split b h
  have hb : (setBook l isbn b).books = l.books := by rw [hr, hl]
  cases l
  simp_all [setBook]

/-- Writing back the found member itself is a no-op. -/
theorem setMember_self {l : Library} {mid : String} {m : Member}
    (h : find_member_by_id l mid = some m) : setMember l mid m = l := by
  obtain ⟨s, t, hl, _, _, hr⟩ := setMember_split m h
  have hb : (setMember l mid m).members = l.members := by rw [hr, hl]
  cases l
  simp_all [setMember]

/-- Looking up a key right after writing it yields the written value. -/
theorem lookupBook_setBook_self {l : Library} {isbn : String} {b0 : Book} (b : Book)
    (h : lookupBook l isbn = some b0) :
    lookupBook (setBook l isbn b) isbn = some b := by
  obtain ⟨s, t, _, hs, hr⟩ := setBook_split b h
  unfold lookupBook
  rw [hr, find?_append_none hs, List.find?_cons_of_pos _ (by simp)]
  rfl

/-- Finding an id right after writing a member with that id yields it. -/
theorem find_member_setMember_self {l : Library} {mid : String} {m0 : Member} (m : Member)
    (h : find_member_by_id l mid = some m0) (hm : m.member_id = mid) :
    find_member_by_id (setMember l mid m) mid = some m := by
  obtain ⟨s, t, _, hs, _, hr⟩ := setMember_split m h
  unfold find_member_by_id
  rw [hr, find?_append_none hs, List.find?_cons_of_pos _ (by simp [hm])]

theorem applyTitle_total (b : Book) (o : Option String) :
    (applyTitle b o).total_copies = b.total_copies := by cases o <;> rfl

theorem applyTitle_available (b : Book) (o : Option String) :
    (applyTitle b o).available_copies = b.available_copies := by cases o <;> rfl

theorem applyAuthor_total (b : Book) (o : Option String) :
    (applyAuthor b o).total_copies = b.total_copies := by cases o <;> rfl

theorem applyAuthor_available (b : Book) (o : Option String) :
    (applyAuthor b o).available_copies = b.available_copies := by cases o <;> rfl

theorem applyName_id (m : Member) (o : Option String) :
    (applyName m o).member_id = m.member_id := by cases o <;> rfl

theorem applyName_borrowed (m : Member) (o : Option String) :
    (applyName m o).borrowed_books = m.borrowed_books := by cases o <;> rfl

theorem contains_eq_decide (xs : List String) (i : String) :
    xs.contains i = decide (i ∈ xs) := by
  induction xs with
  | nil => rfl
  | cons x xs ih =>
    by_cases hx : i = x <;> simp [List.contains_cons, ih, hx]

/-- Replacing one book by another with the same copy accounting and legal
bounds preserves the full invariant. -/
theorem inv_setBook {l : Library} {isbn : String} {b0 b : Book}
    (hInv : Inv l) (h : lookupBook l isbn = some b0)
    (hbal : 0 ≤ b.available_copies ∧ b.available_copies ≤ b.total_copies)
    (htot : b.total_copies - b.available_copies =
      b0.total_copies - b0.available_copies) :
    Inv (setBook l isbn b) := by
  obtain ⟨s, t, hl, hs, hr⟩ := setBook_split b h
  rcases hInv with ⟨hk, hid, hav, hcross, hmem⟩
  have hkeys : bookKeys (setBook l isbn b) = bookKeys l := by
    simp [bookKeys, hr, hl]
  have hholds : ∀ i, holdsCount (setBook l isbn b) i = holdsCount l i :=
    fun i => rfl
  refine ⟨?_, hid, ?_, ?_, ?_⟩
  · rw [hkeys]; exact hk
  · intro p hp
    rw [show (setBook l isbn b).books = s ++ (isbn, b) :: t from hr] at hp
    rcases List.mem_append.mp hp with hp | hp
    · exact hav p (hl ▸ List.mem_append_left _ hp)
    · rcases List.mem_cons.mp hp with rfl | hp
      · exact hbal
      · exact hav p (hl ▸ List.mem_append_right _ (List.mem_cons_of_mem _ hp))
  · intro p hp
    rw [hholds p.1]
    rw [show (setBook l isbn b).books = s ++ (isbn, b) :: t from hr] at hp
    rcases List.mem_append.mp hp with hp | hp
    · exact hcross p (hl ▸ List.mem_append_left _ hp)
    · rcases List.mem_cons.mp hp with rfl | hp
      · have h0 := hcross (isbn, b0)
          (hl ▸ List.mem_append_right _ (List.mem_cons_self _ _))
      -- the new entry has the same borrow count as the old one
        simpa [htot] using h0
      · exact hcross p (hl ▸ List.mem_append_right _ (List.mem_cons_of_mem _ hp))
  · intro m hm
    obtain ⟨h1, h2, h3⟩ := hmem m hm
    exact ⟨h1, h2, fun i hi => hkeys ▸ h3 i hi⟩

/-- Replacing one member by another with the same id and the same borrowed
list preserves the full invariant. -/
theorem inv_setMember {l : Library} {mid : String} {m0 m : Member}
    (hInv : Inv l) (h : find_member_by_id l mid = some m0)
    (hidm : m.member_id = m0.member_id)
    (hbb : m.borrowed_books = m0.borrowed_books) :
    Inv (setMember l mid m) := by
  obtain ⟨s, t, hl, hs, hx, hr⟩ := setMember_split m h
  rcases hInv with ⟨hk, hid, hav, hcross, hmem⟩
  have hids : (setMember l mid m).members.map Member.member_id =
      l.members.map Member.member_id := by
    simp [hr, hl, hidm]
  have hholds : ∀ i, holdsCount (setMember l mid m) i = holdsCount l i := by
    intro i
    simp [holdsCount, hr, hl, List.countP_append, List.countP_cons, hbb]
  have hm0 : m0 ∈ l.members := hl ▸ List.mem_append_right _ (List.mem_cons_self _ _)
  refine ⟨hk, ?_, hav, ?_, ?_⟩
  · rw [hids]; exact hid
  · intro p hp
    rw [hholds p.1]
    exact hcross p hp
  · intro mm hmm
    rw [show (setMember l mid m).members = s ++ m :: t from hr] at hmm
    rcases List.mem_append.mp hmm with hmm | hmm
    · exact hmem mm (hl ▸ List.mem_append_left _ hmm)
    · rcases List.mem_cons.mp hmm with rfl | hmm
      · obtain ⟨h1, h2, h3⟩ := hmem m0 hm0
        exact ⟨hbb ▸ h1, hbb ▸ h2, fun i hi => h3 i (hbb ▸ hi)⟩
      · exact hmem mm (hl ▸ List.mem_append_right _ (List.mem_cons_of_mem _ hmm))

/-- The total_copies tail of update_book preserves the invariant. -/
theorem inv_update_book_total {l : Library} {isbn : String} {b : Book}
    (hInv : Inv l) (h : lookupBook l isbn = some b) (ti : Option Int) :
    Inv (update_book_total l isbn b ti).1 := by
  cases ti with
  | none => exact hInv
  | some nt =>
    have hbmem : (isbn, b) ∈ l.books := List.mem_of_find?_eq_some (lookupBook_some h)
    have hbounds : 0 ≤ b.available_copies ∧ b.available_copies ≤ b.total_copies :=
      hInv.2.2.1 (isbn, b) hbmem
    unfold update_book_total
    dsimp only
    by_cases h0 : nt ≤ 0
    · rw [if_pos h0]; exact hInv
    · rw [if_neg h0]
      by_cases h1 : nt < b.total_copies - b.available_copies
      · rw [if_pos h1]; exact hInv
      · rw [if_neg h1]
        refine inv_setBook hInv h ⟨by dsimp only; omega, by dsimp only; omega⟩
          (by dsimp only; omega)

/-- update_book preserves the invariant on every exit, including the exits
that fail after some field writes. -/
theorem inv_update_book {l : Library} (hInv : Inv l) (isbn : String)
    (kw : BookUpdate) : Inv (update_book l isbn kw).1 := by
  unfold update_book
  cases hlk : lookupBook l isbn with
  | none => exact hInv
  | some book0 =>
    dsimp only
    have hbmem : (isbn, book0) ∈ l.books :=
      List.mem_of_find?_eq_some (lookupBook_some hlk)
    have hbounds : 0 ≤ book0.available_copies ∧
        book0.available_copies ≤ book0.total_copies :=
      hInv.2.2.1 (isbn, book0) hbmem
    have hb2a : (applyAuthor (applyTitle book0 kw.title) kw.author).available_copies
        = book0.available_copies := by rw [applyAuthor_available, applyTitle_available]
    have hb2t : (applyAuthor (applyTitle book0 kw.title) kw.author).total_copies
        = book0.total_copies := by rw [applyAuthor_total, applyTitle_total]
    cases hg : kw.genre with
    | some g =>
      dsimp only
      by_cases hgv : g ∈ genres
      · rw [if_pos hgv]
        refine inv_update_book_total ?_ (lookupBook_setBook_self _ hlk) kw.total_copies
        refine inv_setBook hInv hlk ?_ ?_
        · dsimp only; rw [hb2a, hb2t]; exact hbounds
        · dsimp only; rw [hb2a, hb2t]
      · rw [if_neg hgv]
        refine inv_setBook hInv hlk ?_ ?_
        · rw [hb2a, hb2t]; exact hbounds
        · rw [hb2a, hb2t]
    | none =>
      dsimp only
      refine inv_update_book_total ?_ (lookupBook_setBook_self _ hlk) kw.total_copies
      refine inv_setBook hInv hlk ?_ ?_
      · rw [hb2a, hb2t]; exact hbounds
      · rw [hb2a, hb2t]

/-- update_member preserves the invariant on every exit. -/
theorem inv_update_member {l : Library} (hInv : Inv l) (mid : String)
    (kw : MemberUpdate) : Inv (update_member l mid kw).1 := by
  unfold update_member
  cases hf : find_member_by_id l mid with
  | none => exact hInv
  | some m0 =>
    dsimp only
    have hid1 : (applyName m0 kw.name).member_id = m0.member_id := applyName_id ..
    have hbb1 : (applyName m0 kw.name).borrowed_books = m0.borrowed_books :=
      applyName_borrowed ..
    cases he : kw.email with
    | none => dsimp only; exact inv_setMember hInv hf hid1 hbb1
    | some e =>
      dsimp only
      by_cases hv : is_valid_email e = true
      · rw [if_pos hv]
        exact inv_setMember hInv hf (by dsimp only; rw [hid1])
          (by dsimp only; rw [hbb1])
      · rw [if_neg hv]
        exact inv_setMember hInv hf hid1 hbb1

/-- add_book preserves the invariant. -/
theorem inv_add_book {l : Library} (hInv : Inv l)
    (isbn title author genre : String) (n : Int) :
    Inv (add_book l isbn title author genre n).1 := by
  unfold add_book
  by_cases hdup : (lookupBook l isbn).isSome = true
  · rw [if_pos hdup]; exact hInv
  · rw [if_neg hdup]
    by_cases hg : genre ∉ genres
    · rw [if_pos hg]; exact hInv
    · rw [if_neg hg]
      by_cases hn : n ≤ 0
      · rw [if_pos hn]; exact hInv
      · rw [if_neg hn]
        have hnone : lookupBook l isbn = none :=
          Option.not_isSome_iff_eq_none.mp hdup
        have hfind : l.books.find? (fun p => p.1 == isbn) = none := by
          unfold lookupBook at hnone
          exact Option.map_eq_none'.mp hnone
        have hfresh : isbn ∉ bookKeys l := by
          intro hmemk
          obtain ⟨p, hp, hp1⟩ := List.mem_map.mp hmemk
          have := List.find?_eq_none.mp hfind p hp
          simp [hp1] at this
        rcases hInv with ⟨hk, hid, hav, hcross, hmem⟩
        refine ⟨?_, hid, ?_, ?_, ?_⟩
        · have : bookKeys { l with
              books := l.books ++ [(isbn, ⟨isbn, title, author, genre, n, n⟩)] } =
              bookKeys l ++ [isbn] := by simp [bookKeys]
          rw [this, List.nodup_append]
          exact ⟨hk, List.nodup_singleton _, fun a ha hb => by
            simp at hb; subst hb; exact hfresh ha⟩
        · intro p hp
          rcases List.mem_append.mp hp with hp | hp
          · exact hav p hp
          · simp at hp; subst hp; dsimp only; omega
        · intro p hp
          have hc : ∀ i, holdsCount { l with
              books := l.books ++ [(isbn, ⟨isbn, title, author, genre, n, n⟩)] } i =
              holdsCount l i := fun i => rfl
          rw [hc]
          rcases List.mem_append.mp hp with hp | hp
          · exact hcross p hp
          · simp at hp; subst hp
            dsimp only
            have hz : holdsCount l isbn = 0 := by
              rw [holdsCount, List.countP_eq_zero]
              intro m hm hcon
              have : isbn ∈ m.borrowed_books := by
                simpa [contains_eq_decide] using hcon
              exact hfresh ((hmem m hm).2.2 isbn this)
            rw [hz]
            simp
        · intro m hm
          obtain ⟨h1, h2, h3⟩ := hmem m hm
          refine ⟨h1, h2, fun i hi => ?_⟩
          have : bookKeys { l with
              books := l.books ++ [(isbn, ⟨isbn, title, author, genre, n, n⟩)] } =
              bookKeys l ++ [isbn] := by simp [bookKeys]
          rw [this]
          exact List.mem_append_left _ (h3 i hi)

/-- add_member preserves the invariant. -/
theorem inv_add_member {l : Library} (hInv : Inv l) (mid name email : String) :
    Inv (add_member l mid name email).1 := by
  unfold add_member
  by_cases hdup : (find_member_by_id l mid).isSome = true
  · rw [if_pos hdup]; exact hInv
  · rw [if_neg hdup]
    by_cases hv : is_valid_email email = true
    · rw [if_pos hv]
      have hnone : find_member_by_id l mid = none :=
        Option.not_isSome_iff_eq_none.mp hdup
      have hfresh : ∀ m ∈ l.members, m.member_id ≠ mid := by
        intro m hm heq
        have := List.find?_eq_none.mp hnone m hm
        simp [heq] at this
      rcases hInv with ⟨hk, hid, hav, hcross, hmem⟩
      refine ⟨hk, ?_, hav, ?_, ?_⟩
      · have : ({ l with members := l.members ++ [⟨mid, name, email, []⟩] } :
            Library).members.map Member.member_id =
            l.members.map Member.member_id ++ [mid] := by simp
        rw [this, List.nodup_append]
        refine ⟨hid, List.nodup_singleton _, fun a ha hb => ?_⟩
        simp at hb
        subst hb
        obtain ⟨m, hm, hmeq⟩ := List.mem_map.mp ha
        exact hfresh m hm hmeq
      · intro p hp
        have hc : ∀ i, holdsCount
            { l with members := l.members ++ [⟨mid, name, email, []⟩] } i =
            holdsCount l i := by
          intro i
          simp [holdsCount, List.countP_append]
        rw [hc]
        exact hcross p hp
      · intro m hm
        rcases List.mem_append.mp hm with hm | hm
        · exact hmem m hm
        · simp at hm; subst hm
          exact ⟨by simp, by simp, by simp⟩
    · rw [if_neg hv]; exact hInv

/-- delete_book preserves the invariant. -/
theorem inv_delete_book {l : Library} (hInv : Inv l) (isbn : String) :
    Inv (delete_book l isbn).1 := by
  unfold delete_book
  cases hlk : lookupBook l isbn with
  | none => exact hInv
  | some book =>
    dsimp only
    by_cases hc : book.available_copies ≠ book.total_copies
    · rw [if_pos hc]; exact hInv
    · rw [if_neg hc]
      push_neg at hc
      obtain ⟨s, t, hl, hs, hx, hr, he⟩ :=
        find?_split (fun p => p.1 == isbn) (isbn, book) l.books _ (lookupBook_some hlk)
      rcases hInv with ⟨hk, hid, hav, hcross, hmem⟩
      have hbmem : (isbn, book) ∈ l.books :=
        hl ▸ List.mem_append_right _ (List.mem_cons_self _ _)
      have hz : holdsCount l isbn = 0 := by
        have h0 : book.total_copies - book.available_copies =
            (holdsCount l isbn : Int) := hcross (isbn, book) hbmem
        have : (holdsCount l isbn : Int) = 0 := by omega
        exact_mod_cast this
      have hnot : ∀ m ∈ l.members, isbn ∉ m.borrowed_books := by
        intro m hm hin
        have : 0 < holdsCount l isbn := by
          rw [holdsCount]
          refine List.countP_pos_iff.mpr ⟨m, hm, ?_⟩
          simpa [contains_eq_decide] using hin
        omega
      have hsubl : List.Sublist (s ++ t) l.books := by
        rw [hl]; exact List.Sublist.append_left (List.sublist_cons_self _ _) s
      refine ⟨?_, hid, ?_, ?_, ?_⟩
      · show ((l.books.eraseP (fun p => p.1 == isbn)).map Prod.fst).Nodup
        rw [he]
        exact List.Nodup.sublist (List.Sublist.map _ hsubl) hk
      · intro p hp
        have hp2 : p ∈ s ++ t := by rw [← he]; exact hp
        exact hav p (hsubl.subset hp2)
      · intro p hp
        have hp2 : p ∈ s ++ t := by rw [← he]; exact hp
        exact hcross p (hsubl.subset hp2)
      · intro m hm
        obtain ⟨h1, h2, h3⟩ := hmem m hm
        refine ⟨h1, h2, fun i hi => ?_⟩
        have hio : i ∈ bookKeys l := h3 i hi
        have hne : i ≠ isbn := fun hh => hnot m hm (hh ▸ hi)
        show i ∈ (l.books.eraseP (fun p => p.1 == isbn)).map Prod.fst
        rw [he]
        simp only [bookKeys, hl, List.map_append, List.map_cons,
          List.mem_append, List.mem_cons] at hio
        rcases hio with hio | hio | hio
        · rw [List.map_append]; exact List.mem_append_left _ hio
        · exact absurd hio hne
        · rw [List.map_append]; exact List.mem_append_right _ hio

/-- delete_member preserves the invariant. -/
theorem inv_delete_member {l : Library} (hInv : Inv l) (mid : String) :
    Inv (delete_member l mid).1 := by
  unfold delete_member
  cases hf : find_member_by_id l mid with
  | none => exact hInv
  | some m =>
    dsimp only
    by_cases hb : m.borrowed_books ≠ []
    · rw [if_pos hb]; exact hInv
    · rw [if_neg hb]
      push_neg at hb
      have hf2 := hf
      unfold find_member_by_id at hf2
      obtain ⟨s, t, hl, hs, hx, hr, he⟩ :=
        find?_split (fun x => x.member_id == mid) m l.members _ hf2
      rcases hInv with ⟨hk, hid, hav, hcross, hmem⟩
      have hsubl : List.Sublist (s ++ t) l.members := by
        rw [hl]; exact List.Sublist.append_left (List.sublist_cons_self _ _) s
      refine ⟨hk, ?_, hav, ?_, ?_⟩
      · show ((l.members.eraseP (fun x => x.member_id == mid)).map
          Member.member_id).Nodup
        rw [he]
        exact List.Nodup.sublist (List.Sublist.map _ hsubl) hid
      · intro p hp
        have hcc : holdsCount
            { l with members := l.members.eraseP (fun x => x.member_id == mid) } p.1 =
            holdsCount l p.1 := by
          simp only [holdsCount]
          show (l.members.eraseP (fun x => x.member_id == mid)).countP _ = _
          rw [he, hl]
          simp [List.countP_append, List.countP_cons, hb]
        rw [hcc]
        exact hcross p hp
      · intro mm hmm
        have hmm2 : mm ∈ s ++ t := by rw [← he]; exact hmm
        exact hmem mm (hsubl.subset hmm2)

/-- borrow_book preserves the invariant. -/
theorem inv_borrow_book {l : Library} (hInv : Inv l) (mid isbn : String) :
    Inv (borrow_book l mid isbn).1 := by
  unfold borrow_book
  cases hf : find_member_by_id l mid with
  | none => exact hInv
  | some member =>
    dsimp only
    cases hlk : lookupBook l isbn with
    | none => exact hInv
    | some book =>
      dsimp only
      by_cases h1 : 3 ≤ member.borrowed_books.length
      · rw [if_pos h1]; exact hInv
      · rw [if_neg h1]
        by_cases h2 : book.available_copies ≤ 0
        · rw [if_pos h2]; exact hInv
        · rw [if_neg h2]
          by_cases h3 : isbn ∈ member.borrowed_books
          · rw [if_pos h3]; exact hInv
          · rw [if_neg h3]
            obtain ⟨sm, tm, hlm, hsm, hmid, hrm⟩ := setMember_split
              { member with borrowed_books := member.borrowed_books ++ [isbn] } hf
            have hlk2 : lookupBook (setMember l mid
                { member with borrowed_books := member.borrowed_books ++ [isbn] })
                isbn = some book := hlk
            obtain ⟨sb, tb, hlb, hsb, hrb⟩ := setBook_split
              { book with available_copies := book.available_copies - 1 } hlk2
            have hlb2 : l.books = sb ++ (isbn, book) :: tb := hlb
            rcases hInv with ⟨hk, hid, hav, hcross, hmem⟩
            have hmemb : member ∈ l.members :=
              hlm ▸ List.mem_append_right _ (List.mem_cons_self _ _)
            have hbmem : (isbn, book) ∈ l.books :=
              List.mem_of_find?_eq_some (lookupBook_some hlk)
            have hbbounds : 0 ≤ book.available_copies ∧
                book.available_copies ≤ book.total_copies := hav (isbn, book) hbmem
            obtain ⟨hmlen, hmnd, hmheld⟩ := hmem member hmemb
            have hcnt : ∀ i, i ≠ isbn →
                holdsCount (setBook (setMember l mid
                  { member with borrowed_books := member.borrowed_books ++ [isbn] })
                  isbn { book with available_copies := book.available_copies - 1 }) i =
                holdsCount l i := by
              intro i hne
              have hcongr :
                  (member.borrowed_books ++ [isbn]).contains i =
                  member.borrowed_books.contains i := by
                simp [contains_eq_decide, List.mem_append, hne]
              simp only [holdsCount, setBook_members]
              rw [hrm, hlm]
              simp [List.countP_append, List.countP_cons, hcongr, hne]
            have hcntisbn :
                holdsCount (setBook (setMember l mid
                  { member with borrowed_books := member.borrowed_books ++ [isbn] })
                  isbn { book with available_copies := book.available_copies - 1 }) isbn =
                holdsCount l isbn + 1 := by
              have hnew : (member.borrowed_books ++ [isbn]).contains isbn = true := by
                simp [contains_eq_decide]
              have hold : member.borrowed_books.contains isbn = false := by
                simp [contains_eq_decide, h3]
              simp only [holdsCount, setBook_members]
              rw [hrm, hlm]
              simp [List.countP_append, List.countP_cons, hnew, hold, h3]
              omega
            have hkeysL : bookKeys (setBook (setMember l mid
                { member with borrowed_books := member.borrowed_books ++ [isbn] })
                isbn { book with available_copies := book.available_copies - 1 }) =
                bookKeys l := by
              simp only [bookKeys]
              rw [hrb, hlb2]
              simp
            have htbne : ∀ p ∈ tb, p.1 ≠ isbn := by
              have hk2 := hk
              simp only [bookKeys] at hk2
              rw [hlb2] at hk2
              simp only [List.map_append, List.map_cons, List.nodup_append,
                List.nodup_cons] at hk2
              intro p hp hpe
              exact hk2.2.1.1 (hpe ▸ List.mem_map_of_mem Prod.fst hp)
            refine ⟨?_, ?_, ?_, ?_, ?_⟩
            · rw [hkeysL]; exact hk
            · show ((setMember l mid { member with
                  borrowed_books := member.borrowed_books ++ [isbn] }).members.map
                  Member.member_id).Nodup
              rw [hrm]
              have hid2 := hid
              rw [hlm] at hid2
              simpa using hid2
            · intro p hp
              rw [hrb] at hp
              rcases List.mem_append.mp hp with hp | hp
              · exact hav p (hlb2 ▸ List.mem_append_left _ hp)
              · rcases List.mem_cons.mp hp with rfl | hp
                · dsimp only; omega
                · exact hav p
                    (hlb2 ▸ List.mem_append_right _ (List.mem_cons_of_mem _ hp))
            · intro p hp
              rw [hrb] at hp
              rcases List.mem_append.mp hp with hp | hp
              · have hpne : p.1 ≠ isbn := by
                  have := hsb p hp
                  simpa using this
                rw [hcnt p.1 hpne]
                exact hcross p (hlb2 ▸ List.mem_append_left _ hp)
              · rcases List.mem_cons.mp hp with rfl | hp
                · dsimp only
                  rw [hcntisbn]
                  have hc0 : book.total_copies - book.available_copies =
                      (holdsCount l isbn : Int) := hcross (isbn, book) hbmem
                  push_cast
                  omega
                · rw [hcnt p.1 (htbne p hp)]
                  exact hcross p
                    (hlb2 ▸ List.mem_append_right _ (List.mem_cons_of_mem _ hp))
            · intro mm hmm
              rw [setBook_members, hrm] at hmm
              rcases List.mem_append.mp hmm with hmm | hmm
              · obtain ⟨g1, g2, g3⟩ := hmem mm (hlm ▸ List.mem_append_left _ hmm)
                exact ⟨g1, g2, fun i hi => hkeysL ▸ g3 i hi⟩
              · rcases List.mem_cons.mp hmm with rfl | hmm
                · refine ⟨?_, ?_, ?_⟩
                  · dsimp only; simp; omega
                  · dsimp only
                    simp [List.nodup_append, hmnd, h3]
                  · dsimp only
                    intro i hi
                    rw [hkeysL]
                    rcases List.mem_append.mp hi with hi | hi
                    · exact hmheld i hi
                    · simp at hi
                      subst hi
                      exact List.mem_map_of_mem Prod.fst hbmem
                · obtain ⟨g1, g2, g3⟩ := hmem mm
                    (hlm ▸ List.mem_append_right _ (List.mem_cons_of_mem _ hmm))
                  exact ⟨g1, g2, fun i hi => hkeysL ▸ g3 i hi⟩

/-- return_book preserves the invariant. -/
theorem inv_return_book {l : Library} (hInv : Inv l) (mid isbn : String) :
    Inv (return_book l mid isbn).1 := by
  unfold return_book
  cases hf : find_member_by_id l mid with
  | none => exact hInv
  | some member =>
    dsimp only
    cases hlk : lookupBook l isbn with
    | none => exact hInv
    | some book =>
      dsimp only
      by_cases h3 : isbn ∉ member.borrowed_books
      · rw [if_pos h3]; exact hInv
      · rw [if_neg h3]
        push_neg at h3
        obtain ⟨sm, tm, hlm, hsm, hmid, hrm⟩ := setMember_split
          { member with borrowed_books := member.borrowed_books.erase isbn } hf
        have hlk2 : lookupBook (setMember l mid
            { member with borrowed_books := member.borrowed_books.erase isbn })
            isbn = some book := hlk
        obtain ⟨sb, tb, hlb, hsb, hrb⟩ := setBook_split
          { book with available_copies := book.available_copies + 1 } hlk2
        have hlb2 : l.books = sb ++ (isbn, book) :: tb := hlb
        rcases hInv with ⟨hk, hid, hav, hcross, hmem⟩
        have hmemb : member ∈ l.members :=
          hlm ▸ List.mem_append_right _ (List.mem_cons_self _ _)
        have hbmem : (isbn, book) ∈ l.books :=
          List.mem_of_find?_eq_some (lookupBook_some hlk)
        have hbbounds : 0 ≤ book.available_copies ∧
            book.available_copies ≤ book.total_copies := hav (isbn, book) hbmem
        obtain ⟨hmlen, hmnd, hmheld⟩ := hmem member hmemb
        have hcnt : ∀ i, i ≠ isbn →
            holdsCount (setBook (setMember l mid
              { member with borrowed_books := member.borrowed_books.erase isbn })
              isbn { book with available_copies := book.available_copies + 1 }) i =
            holdsCount l i := by
          intro i hne
          have hcongr :
              (member.borrowed_books.erase isbn).contains i =
              member.borrowed_books.contains i := by
            simp [contains_eq_decide, List.Nodup.mem_erase_iff hmnd, hne]
          simp only [holdsCount, setBook_members]
          rw [hrm, hlm]
          simp [List.countP_append, List.countP_cons,
            List.Nodup.mem_erase_iff hmnd, hne]
        have hcntisbn :
            holdsCount (setBook (setMember l mid
              { member with borrowed_books := member.borrowed_books.erase isbn })
              isbn { book with available_copies := book.available_copies + 1 }) isbn + 1 =
            holdsCount l isbn := by
          have hnew : (member.borrowed_books.erase isbn).contains isbn = false := by
            simp [contains_eq_decide, List.Nodup.mem_erase_iff hmnd]
          have hold : member.borrowed_books.contains isbn = true := by
            simp [contains_eq_decide, h3]
          simp only [holdsCount, setBook_members]
          rw [hrm, hlm]
          simp [List.countP_append, List.countP_cons,
            List.Nodup.mem_erase_iff hmnd, h3]
          omega
        have hkeysL : bookKeys (setBook (setMember l mid
            { member with borrowed_books := member.borrowed_books.erase isbn })
            isbn { book with available_copies := book.available_copies + 1 }) =
            bookKeys l := by
          simp only [bookKeys]
          rw [hrb, hlb2]
          simp
        have htbne : ∀ p ∈ tb, p.1 ≠ isbn := by
          have hk2 := hk
          simp only [bookKeys] at hk2
          rw [hlb2] at hk2
          simp only [List.map_append, List.map_cons, List.nodup_append,
            List.nodup_cons] at hk2
          intro p hp hpe
          exact hk2.2.1.1 (hpe ▸ List.mem_map_of_mem Prod.fst hp)
        have hpos : 0 < holdsCount l isbn := by
          rw [holdsCount]
          refine List.countP_pos_iff.mpr ⟨member, hmemb, ?_⟩
          simpa [contains_eq_decide] using h3
        have hc0 : book.total_copies - book.available_copies =
            (holdsCount l isbn : Int) := hcross (isbn, book) hbmem
        refine ⟨?_, ?_, ?_, ?_, ?_⟩
        · rw [hkeysL]; exact hk
        · show ((setMember l mid { member with
              borrowed_books := member.borrowed_books.erase isbn }).members.map
              Member.member_id).Nodup
          rw [hrm]
          have hid2 := hid
          rw [hlm] at hid2
          simpa using hid2
        · intro p hp
          rw [hrb] at hp
          rcases List.mem_append.mp hp with hp | hp
          · exact hav p (hlb2 ▸ List.mem_append_left _ hp)
          · rcases List.mem_cons.mp hp with rfl | hp
            · dsimp only
              constructor
              · omega
              · omega
            · exact hav p
                (hlb2 ▸ List.mem_append_right _ (List.mem_cons_of_mem _ hp))
        · intro p hp
          rw [hrb] at hp
          rcases List.mem_append.mp hp with hp | hp
          · have hpne : p.1 ≠ isbn := by
              have := hsb p hp
              simpa using this
            rw [hcnt p.1 hpne]
            exact hcross p (hlb2 ▸ List.mem_append_left _ hp)
          · rcases List.mem_cons.mp hp with rfl | hp
            · dsimp only
              have := hcntisbn
              omega
            · rw [hcnt p.1 (htbne p hp)]
              exact hcross p
                (hlb2 ▸ List.mem_append_right _ (List.mem_cons_of_mem _ hp))
        · intro mm hmm
          rw [setBook_members, hrm] at hmm
          rcases List.mem_append.mp hmm with hmm | hmm
          · obtain ⟨g1, g2, g3⟩ := hmem mm (hlm ▸ List.mem_append_left _ hmm)
            exact ⟨g1, g2, fun i hi => hkeysL ▸ g3 i hi⟩
          · rcases List.mem_cons.mp hmm with rfl | hmm
            · refine ⟨?_, ?_, ?_⟩
              · dsimp only
                calc (member.borrowed_books.erase isbn).length
                    ≤ member.borrowed_books.length :=
                      (List.erase_sublist _ _).length_le
                  _ ≤ 3 := hmlen
              · dsimp only
                exact List.Nodup.erase _ hmnd
              · dsimp only
                intro i hi
                rw [hkeysL]
                exact hmheld i (List.mem_of_mem_erase hi)
            · obtain ⟨g1, g2, g3⟩ := hmem mm
                (hlm ▸ List.mem_append_right _ (List.mem_cons_of_mem _ hmm))
              exact ⟨g1, g2, fun i hi => hkeysL ▸ g3 i hi⟩

/-- The empty library satisfies the invariant. -/
theorem inv_empty : Inv emptyLibrary := by
  refine ⟨?_, ?_, ?_, ?_, ?_⟩ <;> simp [emptyLibrary, bookKeys]

/-- Every operation preserves the invariant. -/
theorem inv_applyOp {l : Library} (hInv : Inv l) (op : Op) :
    Inv (applyOp l op).1 := by
  cases op with
  | addBook i t a g n => exact inv_add_book hInv i t a g n
  | addMember m n e => exact inv_add_member hInv m n e
  | updateBook i kw => exact inv_update_book hInv i kw
  | updateMember m kw => exact inv_update_member hInv m kw
  | deleteBook i => exact inv_delete_book hInv i
  | deleteMember m => exact inv_delete_member hInv m
  | borrowBook m i => exact inv_borrow_book hInv m i
  | returnBook m i => exact inv_return_book hInv m i

/-- Every state reachable from the empty library satisfies the invariant. -/
theorem inv_runOps (ops : List Op) : Inv (runOps ops) := by
  have main : ∀ (os : List Op) (l : Library), Inv l → Inv (os.foldl stepLib l) := by
    intro os
    induction os with
    | nil => intro l h; exact h
    | cons o os ih =>
      intro l h
      exact ih _ (inv_applyOp h o)
  exact main ops emptyLibrary inv_empty

/-- Claim C4: in every state reachable from the empty library, every book
satisfies 0 le available_copies le total_copies, and every operation
preserves this from any state satisfying the composite invariant. -/
theorem availability_invariant (ops : List Op) :
    (∀ p ∈ (runOps ops).books,
      0 ≤ p.2.available_copies ∧ p.2.available_copies ≤ p.2.total_copies) ∧
    (∀ l : Library, Inv l → ∀ op : Op, ∀ p ∈ (applyOp l op).1.books,
      0 ≤ p.2.available_copies ∧ p.2.available_copies ≤ p.2.total_copies) :=
  ⟨(inv_runOps ops).2.2.1, fun _ h op => (inv_applyOp h op).2.2.1⟩

/-- Witness for C4 on a concrete run containing one borrow. -/
theorem availability_invariant_witness :
    0 ≤ (⟨"i1", "Dune", "Herbert", "Sci-Fi", 2, 1⟩ : Book).available_copies ∧
    (⟨"i1", "Dune", "Herbert", "Sci-Fi", 2, 1⟩ : Book).available_copies ≤
      (⟨"i1", "Dune", "Herbert", "Sci-Fi", 2, 1⟩ : Book).total_copies :=
  (availability_invariant opsB).1 ("i1", ⟨"i1", "Dune", "Herbert", "Sci-Fi", 2, 1⟩)
    (by decide)

/-- Claim C5: in every reachable state, a book's total_copies minus its
available_copies equals the number of members whose borrowed_books list
contains its isbn, and every operation preserves this. -/
theorem cross_consistency_invariant (ops : List Op) :
    (∀ p ∈ (runOps ops).books,
      p.2.total_copies - p.2.available_copies =
        (holdsCount (runOps ops) p.1 : Int)) ∧
    (∀ l : Library, Inv l → ∀ op : Op, ∀ p ∈ (applyOp l op).1.books,
      p.2.total_copies - p.2.available_copies =
        (holdsCount (applyOp l op).1 p.1 : Int)) :=
  ⟨(inv_runOps ops).2.2.2.1, fun _ h op => (inv_applyOp h op).2.2.2.1⟩

/-- Witness for C5 on a concrete run with one outstanding loan. -/
theorem cross_consistency_invariant_witness :
    (⟨"i1", "Dune", "Herbert", "Sci-Fi", 2, 1⟩ : Book).total_copies -
      (⟨"i1", "Dune", "Herbert", "Sci-Fi", 2, 1⟩ : Book).available_copies =
      (holdsCount (runOps opsB) "i1" : Int) :=
  (cross_consistency_invariant opsB).1
    ("i1", ⟨"i1", "Dune", "Herbert", "Sci-Fi", 2, 1⟩) (by decide)

/-- Claim C8: in every reachable state every member holds at most three
books, and a member holding exactly three is refused another borrow with
the limit error, the state (hence the list length) staying unchanged. -/
theorem borrowing_limit_invariant (ops : List Op) :
    (∀ m ∈ (runOps ops).members, m.borrowed_books.length ≤ 3) ∧
    (∀ (mid isbn : String) (m : Member) (b : Book),
      find_member_by_id (runOps ops) mid = some m →
      lookupBook (runOps ops) isbn = some b →
      m.borrowed_books.length = 3 →
      borrow_book (runOps ops) mid isbn = (runOps ops, .error .limitExceeded)) := by
  have hInv := inv_runOps ops
  constructor
  · intro m hm
    exact (hInv.2.2.2.2 m hm).1
  · intro mid isbn m b hf hlk hlen
    unfold borrow_book
    rw [hf]
    dsimp only
    rw [hlk]
    dsimp only
    rw [if_pos (by omega : 3 ≤ m.borrowed_books.length)]

/-- Witness for C8: after three borrows the member holds three books and a
fourth borrow is refused with the limit error. -/
theorem borrowing_limit_invariant_witness :
    (⟨"M1", "Ann", "ann@mail.com", ["b1", "b2", "b3"]⟩ : Member).borrowed_books.length
      ≤ 3 ∧
    borrow_book (runOps opsC) "M1" "b4" =
      (runOps opsC, .error .limitExceeded) :=
  ⟨(borrowing_limit_invariant opsC).1 ⟨"M1", "Ann", "ann@mail.com", ["b1", "b2", "b3"]⟩
      (by decide),
   (borrowing_limit_invariant opsC).2 "M1" "b4"
      ⟨"M1", "Ann", "ann@mail.com", ["b1", "b2", "b3"]⟩
      ⟨"b4", "T4", "A4", "Fiction", 1, 1⟩ (by decide) (by decide) (by decide)⟩

/-- Claim C2: when member and book both exist in a reachable state, the
borrow failure checks fire in the order limit, then availability, then
duplicate hold: the error reported is the first whose condition holds. -/
theorem borrow_error_precedence (ops : List Op) (mid isbn : String)
    (member : Member) (book : Book)
    (hf : find_member_by_id (runOps ops) mid = some member)
    (hlk : lookupBook (runOps ops) isbn = some book) :
    (member.borrowed_books.length = 3 →
      borrow_book (runOps ops) mid isbn = (runOps ops, .error .limitExceeded)) ∧
    (member.borrowed_books.length ≠ 3 → book.available_copies = 0 →
      borrow_book (runOps ops) mid isbn = (runOps ops, .error .unavailable)) ∧
    (member.borrowed_books.length ≠ 3 → book.available_copies ≠ 0 →
      isbn ∈ member.borrowed_books →
      borrow_book (runOps ops) mid isbn = (runOps ops, .error .alreadyHeld)) := by
  have hInv := inv_runOps ops
  have hmemb : member ∈ (runOps ops).members := by
    have h2 := hf
    unfold find_member_by_id at h2
    exact List.mem_of_find?_eq_some h2
  have hlen3 : member.borrowed_books.length ≤ 3 := (hInv.2.2.2.2 member hmemb).1
  have hbmem : (isbn, book) ∈ (runOps ops).books :=
    List.mem_of_find?_eq_some (lookupBook_some hlk)
  have hbounds : 0 ≤ book.available_copies ∧
      book.available_copies ≤ book.total_copies := hInv.2.2.1 (isbn, book) hbmem
  refine ⟨?_, ?_, ?_⟩
  · intro h
    unfold borrow_book
    rw [hf]; dsimp only; rw [hlk]; dsimp only
    rw [if_pos (by omega : 3 ≤ member.borrowed_books.length)]
  · intro h h0
    unfold borrow_book
    rw [hf]; dsimp only; rw [hlk]; dsimp only
    rw [if_neg (by omega : ¬3 ≤ member.borrowed_books.length),
      if_pos (by omega : book.available_copies ≤ 0)]
  · intro h h0 hin
    unfold borrow_book
    rw [hf]; dsimp only; rw [hlk]; dsimp only
    rw [if_neg (by omega : ¬3 ≤ member.borrowed_books.length),
      if_neg (by omega : ¬book.available_copies ≤ 0), if_pos hin]

/-- Witness for C2: with the member at the limit and the last book also
already held by nobody, the limit error is the one reported. -/
theorem borrow_error_precedence_witness :
    borrow_book (runOps opsC) "M1" "b1" = (runOps opsC, .error .limitExceeded) :=
  (borrow_error_precedence opsC "M1" "b1"
      ⟨"M1", "Ann", "ann@mail.com", ["b1", "b2", "b3"]⟩
      ⟨"b1", "T1", "A1", "Fiction", 1, 0⟩ (by decide) (by decide)).1 (by decide)

/-- Claim C10: add_member checks the duplicate id before validating the
email, so with an existing id it fails with the duplicate error no matter
what the email looks like, and the state is unchanged. -/
theorem add_member_duplicate_before_email (l : Library) (mid name email : String)
    (hdup : (find_member_by_id l mid).isSome = true) :
    add_member l mid name email = (l, .error .duplicateKey) := by
  unfold add_member
  rw [if_pos hdup]

/-- Witness for C10 at a malformed email: the duplicate error still wins
and the member collection is untouched. -/
theorem add_member_duplicate_before_email_witness :
    add_member libV "M1" "Bob" "not-an-email" = (libV, .error .duplicateKey) ∧
    is_valid_email "not-an-email" = false :=
  ⟨add_member_duplicate_before_email libV "M1" "Bob" "not-an-email" (by decide),
   by decide⟩

/-- Claim C9: an update with no supplied fields succeeds, returns true and
leaves the whole state unchanged, for books and for members. -/
theorem update_no_fields_noop (l : Library) :
    (∀ (isbn : String) (b : Book), lookupBook l isbn = some b →
      update_book l isbn ⟨none, none, none, none⟩ = (l, .ok true)) ∧
    (∀ (mid : String) (m : Member), find_member_by_id l mid = some m →
      update_member l mid ⟨none, none⟩ = (l, .ok true)) := by
  constructor
  · intro isbn b h
    unfold update_book
    rw [h]
    dsimp only
    show (setBook l isbn b, Except.ok true) = (l, Except.ok true)
    rw [setBook_self h]
  · intro mid m h
    unfold update_member
    rw [h]
    dsimp only
    show (setMember l mid m, Except.ok true) = (l, Except.ok true)
    rw [setMember_self h]

/-- Witness for C9 on a concrete state. -/
theorem update_no_fields_noop_witness :
    update_book libV "i1" ⟨none, none, none, none⟩ = (libV, .ok true) ∧
    update_member libV "M1" ⟨none, none⟩ = (libV, .ok true) :=
  ⟨(update_no_fields_noop libV).1 "i1" ⟨"i1", "Dune", "Herbert", "Sci-Fi", 2, 2⟩
      (by decide),
   (update_no_fields_noop libV).2 "M1" ⟨"M1", "Ann", "ann@mail.com", []⟩
      (by decide)⟩

/-- Counterexample to claim C3 as stated: with zero copies borrowed, the
new total zero is not below the borrowed count, yet the call fails with
the invalid-argument error instead of succeeding, because the code also
rejects any non-positive new total. -/
theorem update_total_exact_borrowed_cx :
    lookupBook libD "i1" = some ⟨"i1", "T", "A", "Fiction", 1, 1⟩ ∧
    (⟨"i1", "T", "A", "Fiction", 1, 1⟩ : Book).total_copies -
      (⟨"i1", "T", "A", "Fiction", 1, 1⟩ : Book).available_copies = 0 ∧
    ¬((0 : Int) < 0) ∧
    update_book libD "i1" ⟨none, none, none, some 0⟩ =
      (libD, .error .invalidArgument) :=
  ⟨by decide, by decide, by decide, by rfl⟩

/-- Claim C3 amended: update of total_copies fails with the
invalid-argument error exactly when the new total is non-positive or below
the borrowed count; otherwise it succeeds, setting total_copies to the new
total and recomputing available_copies as new total minus borrowed (so a
reduction to exactly the borrowed count, when positive, leaves zero
available copies). -/
theorem update_total_copies_spec (l : Library) (isbn : String) (book : Book)
    (t : Int) (h : lookupBook l isbn = some book) :
    (t ≤ 0 ∨ t < book.total_copies - book.available_copies →
      update_book l isbn ⟨none, none, none, some t⟩ =
        (l, .error .invalidArgument)) ∧
    (0 < t → book.total_copies - book.available_copies ≤ t →
      (update_book l isbn ⟨none, none, none, some t⟩).2 = .ok true ∧
      lookupBook (update_book l isbn ⟨none, none, none, some t⟩).1 isbn =
        some { book with
               total_copies := t,
               available_copies :=
                 t - (book.total_copies - book.available_copies) }) := by
  have hstep : update_book l isbn ⟨none, none, none, some t⟩ =
      update_book_total l isbn book (some t) := by
    unfold update_book
    rw [h]
    dsimp only [applyTitle, applyAuthor]
    rw [setBook_self h]
  constructor
  · intro hcond
    rw [hstep]
    unfold update_book_total
    dsimp only
    by_cases ht : t ≤ 0
    · rw [if_pos ht]
    · rw [if_neg ht]
      rw [if_pos (by omega : t < book.total_copies - book.available_copies)]
  · intro ht hb
    rw [hstep]
    unfold update_book_total
    dsimp only
    rw [if_neg (by omega : ¬t ≤ 0),
      if_neg (by omega : ¬t < book.total_copies - book.available_copies)]
    exact ⟨rfl, lookupBook_setBook_self _ h⟩

/-- Witness for amended C3, the scenario of reducing total_copies to
exactly the borrowed count: one of two copies is borrowed and the total is
reduced to one, leaving zero available copies. -/
theorem update_total_copies_spec_witness :
    (update_book libC "i1" ⟨none, none, none, some 1⟩).2 = .ok true ∧
    lookupBook (update_book libC "i1" ⟨none, none, none, some 1⟩).1 "i1" =
      some ⟨"i1", "T", "A", "Fiction", 1, 0⟩ :=
  (update_total_copies_spec libC "i1" ⟨"i1", "T", "A", "Fiction", 2, 1⟩ 1
    (by decide)).2 (by decide) (by decide)

/-- Claim C7: search returns exactly the books whose title or author
contains the query as a case-insensitive substring, as a subsequence of
the full catalog listing (so in catalog order); the empty query returns
every book, and a query matching nothing returns the empty list. -/
theorem search_books_spec (l : Library) (query : String) :
    (∀ b, b ∈ search_books l query ↔ b ∈ list_all_books l ∧ specMatch query b) ∧
    List.Sublist (search_books l query) (list_all_books l) ∧
    search_books l "" = list_all_books l := by
  refine ⟨?_, ?_, ?_⟩
  · intro b
    unfold search_books list_all_books specMatch
    dsimp only
    constructor
    · intro hmem
      obtain ⟨p, hp, rfl⟩ := List.mem_map.mp hmem
      have hpf := List.mem_filter.mp hp
      refine ⟨List.mem_map_of_mem _ hpf.1, ?_⟩
      have hpred := hpf.2
      simpa [strContains] using hpred
    · rintro ⟨hmem, hmatch⟩
      obtain ⟨p, hp, rfl⟩ := List.mem_map.mp hmem
      refine List.mem_map_of_mem _ (List.mem_filter.mpr ⟨hp, ?_⟩)
      simpa [strContains] using hmatch
  · unfold search_books list_all_books
    dsimp only
    exact List.Sublist.map _ (List.filter_sublist _)
  · unfold search_books list_all_books
    dsimp only
    rw [List.filter_eq_self.mpr ?_]
    intro p _
    have hq : (lowerStr "").data = [] := rfl
    have h1 : strContains (lowerStr p.2.title) (lowerStr "") = true := by
      simp only [strContains, hq, decide_eq_true_eq]
      exact ⟨[], (lowerStr p.2.title).data, by simp⟩
    simp [h1]

/-- Claim C6: whenever a borrow succeeds, the matching return succeeds and
restores the book's available_copies and the member's borrowed_books to
their pre-borrow values. -/
theorem borrow_return_round_trip (l l1 : Library) (mid isbn : String)
    (hb : borrow_book l mid isbn = (l1, .ok true)) :
    ∃ member book,
      find_member_by_id l mid = some member ∧
      lookupBook l isbn = some book ∧
      (return_book l1 mid isbn).2 = .ok true ∧
      (find_member_by_id (return_book l1 mid isbn).1 mid).map
        Member.borrowed_books = some member.borrowed_books ∧
      (lookupBook (return_book l1 mid isbn).1 isbn).map
        Book.available_copies = some book.available_copies := by
  unfold borrow_book at hb
  cases hf : find_member_by_id l mid with
  | none => rw [hf] at hb; exact absurd (congrArg Prod.snd hb) (by simp)
  | some member =>
    rw [hf] at hb
    dsimp only at hb
    cases hlk : lookupBook l isbn with
    | none => rw [hlk] at hb; exact absurd (congrArg Prod.snd hb) (by simp)
    | some book =>
      rw [hlk] at hb
      dsimp only at hb
      by_cases h1 : 3 ≤ member.borrowed_books.length
      · rw [if_pos h1] at hb; exact absurd (congrArg Prod.snd hb) (by simp)
      · rw [if_neg h1] at hb
        by_cases h2 : book.available_copies ≤ 0
        · rw [if_pos h2] at hb; exact absurd (congrArg Prod.snd hb) (by simp)
        · rw [if_neg h2] at hb
          by_cases h3 : isbn ∈ member.borrowed_books
          · rw [if_pos h3] at hb; exact absurd (congrArg Prod.snd hb) (by simp)
          · rw [if_neg h3] at hb
            have hl1 : l1 = setBook (setMember l mid
                { member with borrowed_books := member.borrowed_books ++ [isbn] })
                isbn { book with available_copies := book.available_copies - 1 } :=
              (congrArg Prod.fst hb).symm
            subst hl1
            have hmid : member.member_id = mid := by
              have h4 := hf
              unfold find_member_by_id at h4
              have h5 := List.find?_some h4
              simpa using h5
            have hfm1 : find_member_by_id (setBook (setMember l mid
                { member with borrowed_books := member.borrowed_books ++ [isbn] })
                isbn { book with available_copies := book.available_copies - 1 })
                mid =
                some { member with
                       borrowed_books := member.borrowed_books ++ [isbn] } :=
              find_member_setMember_self _ hf hmid
            have hlk1 : lookupBook (setBook (setMember l mid
                { member with borrowed_books := member.borrowed_books ++ [isbn] })
                isbn { book with available_copies := book.available_copies - 1 })
                isbn =
                some { book with
                       available_copies := book.available_copies - 1 } :=
              lookupBook_setBook_self _ hlk
            have hin : isbn ∈ member.borrowed_books ++ [isbn] := by simp
            have herase : (member.borrowed_books ++ [isbn]).erase isbn =
                member.borrowed_books := by
              rw [List.erase_append_right _ h3]
              simp
            refine ⟨member, book, rfl, rfl, ?_, ?_, ?_⟩
            · unfold return_book
              rw [hfm1]
              dsimp only
              rw [hlk1]
              dsimp only
              rw [if_neg (not_not_intro hin)]
            · unfold return_book
              rw [hfm1]
              dsimp only
              rw [hlk1]
              dsimp only
              rw [if_neg (not_not_intro hin)]
              dsimp only
              have hfm2 : find_member_by_id
                  (setBook
                    (setMember
                      (setBook (setMember l mid
                        { member with
                          borrowed_books := member.borrowed_books ++ [isbn] })
                        isbn
                        { book with
                          available_copies := book.available_copies - 1 })
                      mid
                      { member with
                        borrowed_books :=
                          (member.borrowed_books ++ [isbn]).erase isbn })
                    isbn
                    { book with
                      available_copies := book.available_copies - 1 + 1 }) mid =
                  some { member with
                         borrowed_books :=
                           (member.borrowed_books ++ [isbn]).erase isbn } :=
                find_member_setMember_self _ hfm1 hmid
              rw [hfm2]
              simp only [Option.map_some', Option.some.injEq]
              exact herase
            · unfold return_book
              rw [hfm1]
              dsimp only
              rw [hlk1]
              dsimp only
              rw [if_neg (not_not_intro hin)]
              dsimp only
              have hlk2 : lookupBook
                  (setBook
                    (setMember
                      (setBook (setMember l mid
                        { member with
                          borrowed_books := member.borrowed_books ++ [isbn] })
                        isbn
                        { book with
                          available_copies := book.available_copies - 1 })
                      mid
                      { member with
                        borrowed_books :=
                          (member.borrowed_books ++ [isbn]).erase isbn })
                    isbn
                    { book with
                      available_copies := book.available_copies - 1 + 1 }) isbn =
                  some { book with
                         available_copies := book.available_copies - 1 + 1 } :=
                lookupBook_setBook_self _ hlk1
              rw [hlk2]
              simp only [Option.map_some', Option.some.injEq]
              omega

/-- Witness for C6 on a concrete successful borrow. -/
theorem borrow_return_round_trip_witness :
    ∃ member book,
      find_member_by_id libV "M1" = some member ∧
      lookupBook libV "i1" = some book ∧
      (return_book (borrow_book libV "M1" "i1").1 "M1" "i1").2 = .ok true ∧
      (find_member_by_id
          (return_book (borrow_book libV "M1" "i1").1 "M1" "i1").1 "M1").map
        Member.borrowed_books = some member.borrowed_books ∧
      (lookupBook
          (return_book (borrow_book libV "M1" "i1").1 "M1" "i1").1 "i1").map
        Book.available_copies = some book.available_copies :=
  borrow_return_round_trip libV (borrow_book libV "M1" "i1").1 "M1" "i1" (by rfl)

/-- Counterexample to claim C1 as stated: an update_book call that writes
the title and then fails on an invalid genre raises an error while the
title write has already mutated the state. -/
theorem failed_op_mutates_cx :
    (applyOp libD (.updateBook "i1" ⟨some "X", none, some "BAD", none⟩)).2 =
      .error .invalidArgument ∧
    (applyOp libD (.updateBook "i1" ⟨some "X", none, some "BAD", none⟩)).1 ≠
      libD :=
  ⟨by rfl, by decide⟩

/-- Claim C1 amended: a failing operation leaves the state unchanged,
except that a failing update_book or update_member call may retain field
writes made before the failing check; when the fields processed before the
failing check are unsupplied (captured by FramedOp), every failing call
leaves the state unchanged. -/
theorem failed_op_frame (l : Library) (op : Op) (e : LibError)
    (hframe : FramedOp op) (h : (applyOp l op).2 = .error e) :
    (applyOp l op).1 = l := by
  cases op with
  | addBook i t a g n =>
    unfold applyOp add_book at h ⊢
    dsimp only at h ⊢
    by_cases h1 : (lookupBook l i).isSome = true
    · rw [if_pos h1]
    · rw [if_neg h1] at h ⊢
      by_cases h2 : g ∉ genres
      · rw [if_pos h2]
      · rw [if_neg h2] at h ⊢
        by_cases h3 : n ≤ 0
        · rw [if_pos h3]
        · rw [if_neg h3] at h
          simp at h
  | addMember m n e2 =>
    unfold applyOp add_member at h ⊢
    dsimp only at h ⊢
    by_cases h1 : (find_member_by_id l m).isSome = true
    · rw [if_pos h1]
    · rw [if_neg h1] at h ⊢
      by_cases h2 : is_valid_email e2 = true
      · rw [if_pos h2] at h
        simp at h
      · rw [if_neg h2]
  | updateBook i kw =>
    obtain ⟨ht, ha, hgt⟩ := hframe
    unfold applyOp update_book at h ⊢
    dsimp only at h ⊢
    cases hlk : lookupBook l i with
    | none => rfl
    | some b0 =>
      rw [hlk] at h
      dsimp only at h ⊢
      rw [ht, ha] at h ⊢
      dsimp only [applyTitle, applyAuthor] at h ⊢
      rcases hgt with hg0 | ht0
      · rw [hg0] at h ⊢
        dsimp only at h ⊢
        rw [setBook_self hlk] at h ⊢
        cases htc : kw.total_copies with
        | none =>
          rw [htc] at h
          simp [update_book_total] at h
        | some tv =>
          rw [htc] at h
          unfold update_book_total at h ⊢
          dsimp only at h ⊢
          by_cases c1 : tv ≤ 0
          · rw [if_pos c1]
          · rw [if_neg c1] at h ⊢
            by_cases c2 : tv < b0.total_copies - b0.available_copies
            · rw [if_pos c2]
            · rw [if_neg c2] at h
              simp at h
      · rw [ht0] at h ⊢
        cases hg : kw.genre with
        | none =>
          rw [hg] at h
          dsimp only at h
          simp [update_book_total] at h
        | some g =>
          rw [hg] at h
          dsimp only at h ⊢
          by_cases hgv : g ∈ genres
          · rw [if_pos hgv] at h
            simp [update_book_total] at h
          · rw [if_neg hgv]
            dsimp only
            exact setBook_self hlk
  | updateMember m kw =>
    have hn : kw.name = none := hframe
    unfold applyOp update_member at h ⊢
    dsimp only at h ⊢
    cases hf : find_member_by_id l m with
    | none => rfl
    | some m0 =>
      rw [hf] at h
      dsimp only at h ⊢
      rw [hn] at h ⊢
      dsimp only [applyName] at h ⊢
      cases he : kw.email with
      | none =>
        rw [he] at h
        dsimp only at h
        simp at h
      | some e2 =>
        rw [he] at h
        dsimp only at h ⊢
        by_cases hv : is_valid_email e2 = true
        · rw [if_pos hv] at h
          simp at h
        · rw [if_neg hv]
          dsimp only
          exact setMember_self hf
  | deleteBook i =>
    unfold applyOp delete_book at h ⊢
    dsimp only at h ⊢
    cases hlk : lookupBook l i with
    | none => rfl
    | some b =>
      rw [hlk] at h
      dsimp only at h ⊢
      by_cases hc : b.available_copies ≠ b.total_copies
      · rw [if_pos hc]
      · rw [if_neg hc] at h
        simp at h
  | deleteMember m =>
    unfold applyOp delete_member at h ⊢
    dsimp only at h ⊢
    cases hf : find_member_by_id l m with
    | none => rfl
    | some m0 =>
      rw [hf] at h
      dsimp only at h ⊢
      by_cases hc : m0.borrowed_books ≠ []
      · rw [if_pos hc]
      · rw [if_neg hc] at h
        simp at h
  | borrowBook m i =>
    unfold applyOp borrow_book at h ⊢
    dsimp only at h ⊢
    cases hf : find_member_by_id l m with
    | none => rfl
    | some mem =>
      rw [hf] at h
      dsimp only at h ⊢
      cases hlk : lookupBook l i with
      | none => rfl
      | some bk =>
        rw [hlk] at h
        dsimp only at h ⊢
        by_cases c1 : 3 ≤ mem.borrowed_books.length
        · rw [if_pos c1]
        · rw [if_neg c1] at h ⊢
          by_cases c2 : bk.available_copies ≤ 0
          · rw [if_pos c2]
          · rw [if_neg c2] at h ⊢
            by_cases c3 : i ∈ mem.borrowed_books
            · rw [if_pos c3]
            · rw [if_neg c3] at h
              simp at h
  | returnBook m i =>
    unfold applyOp return_book at h ⊢
    dsimp only at h ⊢
    cases hf : find_member_by_id l m with
    | none => rfl
    | some mem =>
      rw [hf] at h
      dsimp only at h ⊢
      cases hlk : lookupBook l i with
      | none => rfl
      | some bk =>
        rw [hlk] at h
        dsimp only at h ⊢
        by_cases c3 : i ∉ mem.borrowed_books
        · rw [if_pos c3]
        · rw [if_neg c3] at h
          simp at h

/-- Witness for amended C1: a failing borrow on the empty library leaves
the state unchanged. -/
theorem failed_op_frame_witness :
    (applyOp emptyLibrary (.borrowBook "M1" "i1")).1 = emptyLibrary :=
  failed_op_frame emptyLibrary (.borrowBook "M1" "i1") .notFound True.intro
    (by rfl)

end LibrarySystem
